import Mathlib

/-!
Shallow embedding of the COBOL copybook / fixed-width record processor in
scripts/cobol_processor.py, together with proofs about the claims of the
specification.  Python strings are modelled as Lean `String`/`List Char`;
Python `int` as `Nat`/`Int`; fallible file input as `Option`.  The
floating-point division in `format_numeric_field` is modelled as exact
decimal arithmetic (Python's `float`-based path agrees with it for all
values below 2^53).
-/

namespace Cobol

/-- Characters treated as whitespace by Python's `str.strip` / `\s` (ASCII range). -/
def pySpace (c : Char) : Bool :=
  c = ' ' || c = '\t' || c = '\n' || c = '\r' || c = '\x0b' || c = '\x0c'

/-- Python `str.strip()`: drop whitespace from both ends. -/
def pyStrip (cs : List Char) : List Char :=
  ((cs.dropWhile pySpace).reverse.dropWhile pySpace).reverse

/-- Python `str.rstrip()`: drop trailing whitespace. -/
def pyRStrip (cs : List Char) : List Char :=
  (cs.reverse.dropWhile pySpace).reverse

/-- Numeric value of a digit string, as computed by Python `int`/`float` on
an all-digit string: fold of `10*acc + digit`. -/
def ofChars (cs : List Char) : Nat :=
  cs.foldl (fun a c => 10 * a + (c.toNat - 48)) 0

/-- Decimal digit character for a value below 10. -/
def digitCh (k : Nat) : Char := Char.ofNat (48 + k)

/-- Decimal digit characters of `n`, most significant first, empty for 0.
Fuel-indexed so that the definition is structurally recursive. -/
def natChars : Nat → Nat → List Char
  | 0, _ => []
  | fuel + 1, n => if n = 0 then [] else natChars fuel (n / 10) ++ [digitCh (n % 10)]

/-- Decimal digit characters of `n`, most significant first (empty for 0). -/
def natDigitsChars (n : Nat) : List Char := natChars (n + 1) n

/-- Python `str(n)` for a nonnegative integer: decimal digits, "0" for zero. -/
def natRepr (n : Nat) : List Char :=
  if n = 0 then ['0'] else natDigitsChars n

/-- Fraction digits of `r` rendered with exactly `d` digits, zero padded on
the left, as Python's fixed-point formatting does for `r < 10^d`. -/
def padFrac (d r : Nat) : List Char :=
  List.replicate (d - (natDigitsChars r).length) '0' ++ natDigitsChars r

/-- Exact rendering of `n / 10^d` with exactly `d` digits after the decimal
point, the value produced by Python's `f-string` fixed-point formatting of
`float(n) / 10**d` (exact for `n < 2^53`). -/
def renderScaled (n d : Nat) : String :=
  String.mk (natRepr (n / 10 ^ d) ++ '.' :: padFrac d (n % 10 ^ d))

/-- Count of occurrences of a character, Python `str.count` for a single char. -/
def countCh (c : Char) (cs : List Char) : Nat :=
  (cs.filter (fun x => x = c)).length

/-- Case-sensitive literal match: returns the remainder when `pat` heads `cs`. -/
def matchLit : List Char → List Char → Option (List Char)
  | [], cs => some cs
  | _ :: _, [] => none
  | p :: ps, c :: cs => if c = p then matchLit ps cs else none

/-- Python `str.replace(pat, '')` for a nonempty pattern: remove all
non-overlapping occurrences, scanning left to right (fuel-indexed). -/
def replaceAux (pat : List Char) : Nat → List Char → List Char
  | _, [] => []
  | 0, cs => cs
  | fuel + 1, c :: cs =>
    match matchLit pat (c :: cs) with
    | some rest => replaceAux pat fuel rest
    | none => c :: replaceAux pat fuel cs

/-- Python `str.replace(pat, '')`. -/
def replaceEmpty (pat cs : List Char) : List Char :=
  replaceAux pat cs.length cs

/-- Regex helper for `re.search`: given the characters following a marker,
recognize `(` digits `)` and return the digits' value. -/
def groupAfter (cs : List Char) : Option Nat :=
  match cs with
  | '(' :: rest =>
    let ds := rest.takeWhile Char.isDigit
    (match rest.drop ds.length with
     | ')' :: _ => if ds.isEmpty then none else some (ofChars ds)
     | _ => none)
  | _ => none

/-- Model of `re.search(marker + r'\((\d+)\)', pic)`: leftmost occurrence of
the marker character immediately followed by a parenthesized digit group. -/
def searchMarkerGroup (marker : Char) : List Char → Option Nat
  | [] => none
  | c :: rest =>
    if c = marker then
      match groupAfter rest with
      | some n => some n
      | none => searchMarkerGroup marker rest
    else searchMarkerGroup marker rest

/-- Model of `re.search(r'\((\d+)\)', cs)`: leftmost parenthesized digit group. -/
def searchParen : List Char → Option Nat
  | [] => none
  | c :: rest =>
    match groupAfter (c :: rest) with
    | some n => some n
    | none => searchParen rest

/-- Embedding of `parse_picture_clause` (scripts/cobol_processor.py lines
404-447): PICTURE clause to (length, field type). -/
def parse_picture_clause (picture : String) : Nat × String :=
  if picture = "" then (0, "group")
  else
    let pic := pyStrip (replaceEmpty "PICTURE".data
      (replaceEmpty "PIC".data (picture.data.map Char.toUpper)))
    if pic.contains 'X' then
      (match searchMarkerGroup 'X' pic with
       | some n => (n, "alphanumeric")
       | none => (countCh 'X' pic, "alphanumeric"))
    else if pic.contains '9' then
      let base :=
        match searchMarkerGroup '9' pic with
        | some n => n
        | none => countCh '9' pic
      let len :=
        if pic.contains 'V' then
          let dec := (pic.dropWhile (fun c => c ≠ 'V')).drop 1
          if dec.contains '(' then
            match searchParen dec with
            | some n => base + n
            | none => base
          else base + countCh '9' dec
        else base
      (len, "numeric")
    else (0, "alphanumeric")

/-- Number of `9` characters after the first `V` of a picture clause, the
decimal-place count used by `format_numeric_field`. -/
def fracCount (picture : String) : Nat :=
  countCh '9' ((picture.data.dropWhile (fun c => c ≠ 'V')).drop 1)

/-- Embedding of `format_numeric_field` (scripts/cobol_processor.py lines
619-643).  The Python original computes `float(clean) / 10**d` and renders
it with `d` fixed decimal places; this is modelled exactly by
`renderScaled` (they agree for all values below 2^53). -/
def format_numeric_field (value : String) (picture : String) : String :=
  if value = "" ∨ picture = "" then value
  else
    let clean := value.data.filter Char.isDigit
    if clean.isEmpty then value
    else if picture.data.contains 'V' then
      (if 0 < fracCount picture then renderScaled (ofChars clean) (fracCount picture)
       else String.mk clean)
    else String.mk clean

/-- Embedding of the `CobolField` dataclass of scripts/cobol_processor.py
(the unused `children` list is omitted: the parser never fills it). -/
structure CobolField where
  level : Nat
  name : String
  picture : Option String
  start_pos : Nat
  length : Nat
  field_type : String
deriving DecidableEq

/-- Captured groups of the field-definition regex of `parse_cobol_copybook`:
level number, identifier, optional REDEFINES target, optional PIC token. -/
structure LineMatch where
  level : Nat
  name : String
  redefinesTarget : Option String
  pic : Option String
deriving DecidableEq

/-- Character class `[A-Z0-9-]` under `re.IGNORECASE`. -/
def nameChar (c : Char) : Bool :=
  ('A' ≤ c && c ≤ 'Z') || ('a' ≤ c && c ≤ 'z') || c.isDigit || c = '-'

/-- Character class `[X9V()0-9]` under `re.IGNORECASE`. -/
def picChar (c : Char) : Bool :=
  c = 'X' || c = 'x' || c = '9' || c = 'V' || c = 'v' || c = '(' || c = ')' || c.isDigit

/-- Regex `\s+`: requires at least one whitespace character and consumes the
maximal run, returning the remainder. -/
def wsPlus : List Char → Option (List Char)
  | [] => none
  | c :: rest => if pySpace c then some (rest.dropWhile pySpace) else none

/-- Case-insensitive literal match against an uppercase keyword, returning
the remainder on success. -/
def litCI : List Char → List Char → Option (List Char)
  | [], cs => some cs
  | _ :: _, [] => none
  | k :: ks, c :: cs => if c.toUpper = k then litCI ks cs else none

/-- Maximal nonempty run of characters satisfying `p` (a `+`-quantified
character class), returning the token and the remainder. -/
def tokenRun (p : Char → Bool) (cs : List Char) : Option (List Char × List Char) :=
  let tk := cs.takeWhile p
  if tk.isEmpty then none else some (tk, cs.drop tk.length)

/-- Result of the optional regex group `(?:\s+KW\s+([class]+))?` applied at
`cs`: the captured token and the remainder on success, otherwise `none`. -/
def optGroup (kw : List Char) (p : Char → Bool) (cs : List Char) :
    Option (List Char × List Char) :=
  match wsPlus cs with
  | none => none
  | some a =>
    match litCI kw a with
    | none => none
    | some b =>
      match wsPlus b with
      | none => none
      | some c => tokenRun p c

/-- Model of `re.match` with the field-definition pattern of
`parse_cobol_copybook` (line 315):
`\s*(\d{2})\s+([A-Z0-9-]+)(?:\s+REDEFINES\s+([A-Z0-9-]+))?(?:\s+PIC\s+([X9V()0-9]+))?\s*\.?`
under `re.IGNORECASE`.  All quantifiers here are greedy over disjoint
character classes, so the backtracking regex is equivalent to this
deterministic matcher. -/
def parseLine (cs0 : List Char) : Option LineMatch :=
  match cs0.dropWhile pySpace with
  | d1 :: d2 :: rest =>
    if d1.isDigit && d2.isDigit then
      match wsPlus rest with
      | none => none
      | some r1 =>
        match tokenRun nameChar r1 with
        | none => none
        | some (nm, r2) =>
          let lvl := (d1.toNat - 48) * 10 + (d2.toNat - 48)
          let rd := optGroup "REDEFINES".data nameChar r2
          let r3 := match rd with
            | some (_, r) => r
            | none => r2
          let pc := optGroup "PIC".data picChar r3
          some { level := lvl, name := String.mk nm,
                 redefinesTarget := rd.map (fun x => String.mk x.1),
                 pic := pc.map (fun x => String.mk x.1) }
    else none
  | _ => none

/-- Tests whether `pat` heads `cs` (Python `str.startswith`). -/
def begWith (pat cs : List Char) : Bool := (matchLit pat cs).isSome

/-- Per-line front end of `parse_cobol_copybook`: strip the line, skip
blank and comment lines, then apply the field-definition regex. -/
def copybookLine (raw : List Char) : Option LineMatch :=
  let line := pyStrip raw
  if line.isEmpty || begWith "*".data line || begWith "      *".data line then none
  else parseLine line

/-- Body of the per-field state update of `parse_cobol_copybook` (lines
317-371): from the running byte cursor and a matched line, produce the
emitted field descriptor and the new cursor. -/
def stepMatch (pos : Nat) (m : LineMatch) : CobolField × Nat :=
  let startp := if m.level = 2 then 1 else pos
  let pos1 := if m.level = 2 then 1 else pos
  match m.pic with
  | some p =>
    let r := parse_picture_clause p
    ({ level := m.level, name := m.name, picture := some p, start_pos := startp,
       length := r.1, field_type := r.2 },
     if 5 ≤ m.level then pos1 + r.1 else pos1)
  | none =>
    ({ level := m.level, name := m.name, picture := none, start_pos := startp,
       length := 0, field_type := "group" }, pos1)

/-- Fold of `stepMatch` over the matched lines, starting from cursor `pos`. -/
def runMatches : Nat → List LineMatch → List CobolField
  | _, [] => []
  | pos, m :: ms =>
    let r := stepMatch pos m
    r.1 :: runMatches r.2 ms

/-- Embedding of `parse_cobol_copybook` (scripts/cobol_processor.py lines
296-401).  The file handle is modelled as `Option (List String)`: `none`
stands for a source that cannot be read or decoded, in which case the
`except` branch returns the empty list.  The post-processing pass of lines
377-399 only prints and does not modify the returned fields; it is
modelled separately by `group_lengths`. -/
def parse_cobol_copybook (source : Option (List String)) : List CobolField :=
  match source with
  | none => []
  | some lines => runMatches 1 (lines.filterMap (fun l => copybookLine l.data))

/-- Recursion of the group-length reporting pass (lines 383-399): a level-02
field starts a new group, an elementary field with a truthy picture and a
positive length extends the running maximum end offset. -/
def groupLenGo : List CobolField → Option String → Nat → List (String × Nat)
  | [], none, _ => []
  | [], some g, mx => [(g, mx)]
  | f :: rest, cur, mx =>
    if f.level = 2 then
      (match cur with
       | some g => (g, mx) :: groupLenGo rest (some f.name) 0
       | none => groupLenGo rest (some f.name) 0)
    else if f.picture ≠ none ∧ f.picture ≠ some "" ∧ 0 < f.length then
      groupLenGo rest cur (max mx (f.start_pos + f.length - 1))
    else groupLenGo rest cur mx

/-- Group byte widths as reported by the post-processing pass of
`parse_cobol_copybook` (lines 383-399). -/
def group_lengths (fields : List CobolField) : List (String × Nat) :=
  groupLenGo fields none 0

/-- The fixed leading-character lookup table of `detect_record_type`. -/
def type_patterns : List (Char × String) :=
  [('1', "UGEC-CAB-RECAUDAC"), ('2', "UGEC-DET-RECAUDAC"), ('9', "UGEC-TOT-RECAUDAC")]

/-- End offset `start_pos + length - 1` of a field, over the integers as in
Python. -/
def endOff (f : CobolField) : Int := (f.start_pos : Int) + (f.length : Int) - 1

/-- Python `max((f.start_pos + f.length - 1) for f in fs)` for nonempty `fs`. -/
def layoutMaxPos : List CobolField → Int
  | [] => 0
  | f :: rest => rest.foldl (fun mx g => max mx (endOff g)) (endOff f)

/-- Length-similarity loop of `detect_record_type` (lines 605-614): scores
each nonempty layout by `1000 - abs(lineLen - expected width)` and keeps
the strictly best one, ties broken by first occurrence. -/
def bestMatchGo : List (String × List CobolField) → Int → String → Int → String
  | [], _, best, _ => best
  | (rt, fs) :: rest, lineLen, best, bestScore =>
    if fs ≠ [] then
      let score : Int := 1000 - (lineLen - layoutMaxPos fs).natAbs
      if bestScore < score then bestMatchGo rest lineLen rt score
      else bestMatchGo rest lineLen best bestScore
    else bestMatchGo rest lineLen best bestScore

/-- Fallback branch of `detect_record_type`: the length heuristic, then the
first layout name.  Python raises `IndexError` on an empty mapping at
`list(record_types.keys())[0]`; that unreachable-by-callers case is
modelled as "UNKNOWN". -/
def detectFallback (line : String) (rts : List (String × List CobolField)) : String :=
  let ll : Int := (pyRStrip line.data).length
  let best := bestMatchGo rts ll "UNKNOWN" 0
  if best ≠ "UNKNOWN" then best
  else ((rts.head?).map Prod.fst).getD "UNKNOWN"

/-- Embedding of `detect_record_type` (scripts/cobol_processor.py lines
575-616).  The `record_types` dict is modelled as an insertion-ordered
association list. -/
def detect_record_type (line : String) (rts : List (String × List CobolField)) : String :=
  if line = "" then "UNKNOWN"
  else if rts.length = 1 then ((rts.head?).map Prod.fst).getD "UNKNOWN"
  else
    match (type_patterns.find? (fun p => p.1 = line.data.headD ' ')).map Prod.snd with
    | some t => if (rts.map Prod.fst).contains t then t else detectFallback line rts
    | none => detectFallback line rts

/-- Python slice `cs[a:b]` for `0 ≤ a ≤ b`: clamped to the list's length. -/
def pySlice (cs : List Char) (a b : Nat) : List Char :=
  (cs.drop a).take (b - a)

/-- Per-field extraction step of the CSV export loop (scripts/
cobol_processor.py lines 719-729): `none` when the field has no truthy
picture or starts beyond the line end, otherwise the stripped (and, for
V-bearing numerics, decimal-formatted) slice. -/
def extract_value (line : List Char) (f : CobolField) : Option String :=
  if f.picture ≠ none ∧ f.picture ≠ some "" ∧ f.start_pos ≤ line.length then
    let pic := f.picture.getD ""
    let raw := String.mk (pyStrip (pySlice line (f.start_pos - 1) (f.start_pos - 1 + f.length)))
    some (if f.field_type = "numeric" ∧ pic.data.contains 'V'
          then format_numeric_field raw pic else raw)
  else none

/-- Insert-or-update of a string-keyed dict modelled as an ordered
association list (Python dict assignment). -/
def dictInsert : List (String × String) → String → String → List (String × String)
  | [], k, v => [(k, v)]
  | (k0, v0) :: rest, k, v =>
    if k0 = k then (k0, v) :: rest else (k0, v0) :: dictInsert rest k v

/-- Python `dict.get(k, dflt)` on the association-list dict model. -/
def dictGet (m : List (String × String)) (k : String) (dflt : String) : String :=
  ((m.find? (fun p => p.1 = k)).map Prod.snd).getD dflt

/-- The `field_values` dict built by the CSV export loop for one line. -/
def field_values_map (line : List Char) : List CobolField → List (String × String) →
    List (String × String)
  | [], acc => acc
  | f :: rest, acc =>
    match extract_value line f with
    | some v => field_values_map line rest (dictInsert acc f.name v)
    | none => field_values_map line rest acc

/-- Data cells of one CSV row (scripts/cobol_processor.py lines 731-733):
one cell per header name, absent fields filled with the empty string. -/
def csv_row_values (line : List Char) (fl : List CobolField) (names : List String) :
    List String :=
  names.map (fun n => dictGet (field_values_map line fl []) n "")

/-- Contiguity predicate: each field starts where the previous one ended
(`start_pos` = running position, advancing by `length`). -/
def contiguousFrom : Nat → List CobolField → Bool
  | _, [] => true
  | p, f :: rest => (f.start_pos = p) && contiguousFrom (p + f.length) rest

/-! Helper lemmas about the decimal rendering used by `format_numeric_field`. -/

theorem strMkData : ∀ s : String, String.mk s.data = s := fun ⟨_⟩ => rfl

theorem data_ne_nil_of_ne_empty {s : String} (h : s ≠ "") : s.data ≠ [] := by
  intro hd
  apply h
  rw [← strMkData s, hd]

theorem ne_empty_of_data_ne_nil {s : String} (h : s.data ≠ []) : s ≠ "" := by
  intro he
  apply h
  rw [he]

theorem ofChars_shift (cs : List Char) :
    ∀ a : Nat, cs.foldl (fun a c => 10 * a + (c.toNat - 48)) a =
      a * 10 ^ cs.length + cs.foldl (fun a c => 10 * a + (c.toNat - 48)) 0 := by
  induction cs with
  | nil => intro a; simp
  | cons c cs ih =>
    intro a
    simp only [List.foldl_cons, List.length_cons]
    rw [ih (10 * a + (c.toNat - 48)), ih (10 * 0 + (c.toNat - 48))]
    ring

theorem ofChars_append (xs ys : List Char) :
    ofChars (xs ++ ys) = ofChars xs * 10 ^ ys.length + ofChars ys := by
  unfold ofChars
  rw [List.foldl_append]
  exact ofChars_shift ys (ofChars xs)

theorem digitCh_toNat {k : Nat} (h : k < 10) : (digitCh k).toNat = 48 + k := by
  interval_cases k <;> rfl

theorem digitCh_isDigit {k : Nat} (h : k < 10) : (digitCh k).isDigit = true := by
  interval_cases k <;> decide

theorem ofChars_single (c : Char) : ofChars [c] = c.toNat - 48 := by
  simp [ofChars]

theorem natChars_ofChars : ∀ fuel n, n ≤ fuel → ofChars (natChars (fuel + 1) n) = n := by
  intro fuel
  induction fuel with
  | zero =>
    intro n hn
    interval_cases n
    simp [natChars, ofChars]
  | succ fuel ih =>
    intro n hn
    by_cases h0 : n = 0
    · subst h0; simp [natChars, ofChars]
    · have hrec : n / 10 ≤ fuel := by
        have := Nat.div_lt_self (Nat.pos_of_ne_zero h0) (by norm_num : 1 < 10)
        omega
      have hstep : natChars (fuel + 1 + 1) n =
          natChars (fuel + 1) (n / 10) ++ [digitCh (n % 10)] := by
        show (if n = 0 then [] else natChars (fuel + 1) (n / 10) ++ [digitCh (n % 10)]) = _
        rw [if_neg h0]
      rw [hstep, ofChars_append, ih (n / 10) hrec, ofChars_single,
        digitCh_toNat (Nat.mod_lt n (by norm_num))]
      simp only [List.length_cons, List.length_nil, pow_one]
      omega

theorem natDigitsChars_ofChars (n : Nat) : ofChars (natDigitsChars n) = n :=
  natChars_ofChars n n (Nat.le_refl n)

theorem natChars_len : ∀ fuel n d, n ≤ fuel → n < 10 ^ d →
    (natChars (fuel + 1) n).length ≤ d := by
  intro fuel
  induction fuel with
  | zero =>
    intro n d hn _
    interval_cases n
    simp [natChars]
  | succ fuel ih =>
    intro n d hn hlt
    by_cases h0 : n = 0
    · subst h0; simp [natChars]
    · obtain ⟨e, rfl⟩ : ∃ e, d = e + 1 := by
        rcases d with _ | e
        · exfalso; simp at hlt; omega
        · exact ⟨e, rfl⟩
      have hrec : n / 10 ≤ fuel := by
        have := Nat.div_lt_self (Nat.pos_of_ne_zero h0) (by norm_num : 1 < 10)
        omega
      have hlt2 : n / 10 < 10 ^ e := by
        rw [Nat.div_lt_iff_lt_mul (by norm_num : 0 < 10)]
        calc n < 10 ^ (e + 1) := hlt
        _ = 10 ^ e * 10 := by ring
      have hstep : natChars (fuel + 1 + 1) n =
          natChars (fuel + 1) (n / 10) ++ [digitCh (n % 10)] := by
        show (if n = 0 then [] else natChars (fuel + 1) (n / 10) ++ [digitCh (n % 10)]) = _
        rw [if_neg h0]
      rw [hstep]
      simp only [List.length_append, List.length_cons, List.length_nil]
      have := ih (n / 10) e hrec hlt2
      omega

theorem natDigitsChars_len {n d : Nat} (h : n < 10 ^ d) :
    (natDigitsChars n).length ≤ d :=
  natChars_len n n d (Nat.le_refl n) h

theorem natChars_isDigit : ∀ fuel n c, c ∈ natChars (fuel + 1) n → c.isDigit = true := by
  intro fuel
  induction fuel with
  | zero =>
    intro n c hc
    by_cases h0 : n = 0
    · subst h0; simp [natChars] at hc
    · simp only [natChars, if_neg h0] at hc
      rcases List.mem_append.mp hc with h | h
      · cases h
      · rcases List.mem_singleton.mp h with rfl
        exact digitCh_isDigit (Nat.mod_lt n (by norm_num))
  | succ fuel ih =>
    intro n c hc
    by_cases h0 : n = 0
    · subst h0; simp [natChars] at hc
    · simp only [natChars, if_neg h0] at hc
      rcases List.mem_append.mp hc with h | h
      · exact ih (n / 10) c h
      · rcases List.mem_singleton.mp h with rfl
        exact digitCh_isDigit (Nat.mod_lt n (by norm_num))

theorem natDigitsChars_isDigit {n : Nat} {c : Char} (h : c ∈ natDigitsChars n) :
    c.isDigit = true :=
  natChars_isDigit n n c h

theorem natRepr_isDigit {n : Nat} {c : Char} (h : c ∈ natRepr n) : c.isDigit = true := by
  unfold natRepr at h
  by_cases h0 : n = 0
  · rw [if_pos h0] at h
    rcases List.mem_singleton.mp h with rfl
    decide
  · rw [if_neg h0] at h
    exact natDigitsChars_isDigit h

theorem ofChars_natRepr (n : Nat) : ofChars (natRepr n) = n := by
  unfold natRepr
  by_cases h0 : n = 0
  · rw [if_pos h0, h0]; decide
  · rw [if_neg h0]; exact natDigitsChars_ofChars n

theorem natRepr_ne_nil (n : Nat) : natRepr n ≠ [] := by
  unfold natRepr
  by_cases h0 : n = 0
  · rw [if_pos h0]; simp
  · rw [if_neg h0]
    unfold natDigitsChars
    simp only [natChars, if_neg h0]
    simp

theorem ofChars_replicate_zero : ∀ k, ofChars (List.replicate k '0') = 0 := by
  intro k
  induction k with
  | zero => rfl
  | succ k ih =>
    show ofChars ('0' :: List.replicate k '0') = 0
    unfold ofChars at ih ⊢
    simpa using ih

theorem padFrac_len {d r : Nat} (h : r < 10 ^ d) : (padFrac d r).length = d := by
  unfold padFrac
  have := natDigitsChars_len h
  simp only [List.length_append, List.length_replicate]
  omega

theorem ofChars_padFrac {d r : Nat} : ofChars (padFrac d r) = r := by
  unfold padFrac
  rw [ofChars_append, ofChars_replicate_zero, natDigitsChars_ofChars]
  ring

theorem padFrac_isDigit {d r : Nat} {c : Char} (h : c ∈ padFrac d r) :
    c.isDigit = true := by
  unfold padFrac at h
  rcases List.mem_append.mp h with h | h
  · rcases List.eq_of_mem_replicate h with rfl
    decide
  · exact natDigitsChars_isDigit h

theorem renderScaled_data (n d : Nat) :
    (renderScaled n d).data = natRepr (n / 10 ^ d) ++ '.' :: padFrac d (n % 10 ^ d) := rfl

theorem renderScaled_filter (n d : Nat) :
    (renderScaled n d).data.filter Char.isDigit =
      natRepr (n / 10 ^ d) ++ padFrac d (n % 10 ^ d) := by
  rw [renderScaled_data, List.filter_append]
  have h1 : (natRepr (n / 10 ^ d)).filter Char.isDigit = natRepr (n / 10 ^ d) :=
    List.filter_eq_self.mpr (fun c hc => natRepr_isDigit hc)
  have h2 : ('.' :: padFrac d (n % 10 ^ d)).filter Char.isDigit =
      padFrac d (n % 10 ^ d) := by
    rw [List.filter_cons_of_neg (by decide)]
    exact List.filter_eq_self.mpr (fun c hc => padFrac_isDigit hc)
  rw [h1, h2]

theorem ofChars_renderScaled_filter (n d : Nat) :
    ofChars ((renderScaled n d).data.filter Char.isDigit) = n := by
  rw [renderScaled_filter, ofChars_append, ofChars_natRepr, ofChars_padFrac,
    padFrac_len (Nat.mod_lt _ (Nat.pos_pow_of_pos d (by norm_num))),
    Nat.mul_comm (n / 10 ^ d) (10 ^ d)]
  exact Nat.div_add_mod n (10 ^ d)

theorem contains_ne_empty {pic : String} {c : Char} (h : pic.data.contains c = true) :
    pic ≠ "" := by
  intro he
  subst he
  have hd : ("" : String).data = [] := rfl
  rw [hd] at h
  cases h

theorem format_digits_eq (s pic : String) (hne : s.data ≠ [])
    (hdig : ∀ c ∈ s.data, c.isDigit = true) (hV : pic.data.contains 'V' = true)
    (hd : 0 < fracCount pic) :
    format_numeric_field s pic = renderScaled (ofChars s.data) (fracCount pic) := by
  have hs : s ≠ "" := ne_empty_of_data_ne_nil hne
  have hp : pic ≠ "" := contains_ne_empty hV
  have hclean : s.data.filter Char.isDigit = s.data := List.filter_eq_self.mpr hdig
  unfold format_numeric_field
  rw [if_neg (by simp [hs, hp]), hclean,
    if_neg (by simp [List.isEmpty_iff, hne]), if_pos hV, if_pos hd]

theorem format_renderScaled_fix (n : Nat) (pic : String)
    (hV : pic.data.contains 'V' = true) (hd : 0 < fracCount pic) :
    format_numeric_field (renderScaled n (fracCount pic)) pic =
      renderScaled n (fracCount pic) := by
  have hp : pic ≠ "" := contains_ne_empty hV
  have hvne : (renderScaled n (fracCount pic)).data ≠ [] := by
    rw [renderScaled_data]
    intro h
    exact natRepr_ne_nil _ (List.append_eq_nil.mp h).1
  have hvs : renderScaled n (fracCount pic) ≠ "" := ne_empty_of_data_ne_nil hvne
  have hfilter := renderScaled_filter n (fracCount pic)
  have hfne : (renderScaled n (fracCount pic)).data.filter Char.isDigit ≠ [] := by
    rw [hfilter]
    intro h
    exact natRepr_ne_nil _ (List.append_eq_nil.mp h).1
  have hval : ofChars ((renderScaled n (fracCount pic)).data.filter Char.isDigit) = n :=
    ofChars_renderScaled_filter n (fracCount pic)
  unfold format_numeric_field
  rw [if_neg (by simp [hvs, hp]), if_neg (by simp [List.isEmpty_iff, hfne]),
    if_pos hV, if_pos hd, hval]

theorem format_digits_fracZero (s pic : String) (hne : s.data ≠ [])
    (hdig : ∀ c ∈ s.data, c.isDigit = true) (hV : pic.data.contains 'V' = true)
    (hd : ¬ 0 < fracCount pic) :
    format_numeric_field s pic = s := by
  have hs : s ≠ "" := ne_empty_of_data_ne_nil hne
  have hp : pic ≠ "" := contains_ne_empty hV
  have hclean : s.data.filter Char.isDigit = s.data := List.filter_eq_self.mpr hdig
  unfold format_numeric_field
  rw [if_neg (by simp [hs, hp]), hclean,
    if_neg (by simp [List.isEmpty_iff, hne]), if_pos hV, if_neg hd, strMkData]

/-! Helper lemmas for the copybook layout claims. -/

theorem runMatches_contig (ms : List LineMatch) :
    ∀ pos, (∀ m ∈ ms, 5 ≤ m.level) →
      contiguousFrom pos (runMatches pos ms) = true := by
  induction ms with
  | nil => intro pos _; rfl
  | cons m ms ih =>
    intro pos h
    have hm : 5 ≤ m.level := h m (List.mem_cons_self m ms)
    have h2 : ¬ m.level = 2 := by omega
    have htail : ∀ x ∈ ms, 5 ≤ x.level := fun x hx => h x (List.mem_cons_of_mem m hx)
    cases hp : m.pic with
    | some p =>
      simp only [runMatches, stepMatch, hp, if_neg h2, if_pos hm, contiguousFrom,
        Bool.and_eq_true, decide_eq_true_eq]
      exact ⟨trivial, ih (pos + (parse_picture_clause p).1) htail⟩
    | none =>
      simp only [runMatches, stepMatch, hp, if_neg h2, contiguousFrom,
        Bool.and_eq_true, decide_eq_true_eq, Nat.add_zero]
      exact ⟨trivial, ih pos htail⟩

/-! Helper lemmas for the decoding claims. -/

theorem extract_value_overrun (line : List Char) (f : CobolField)
    (h : line.length < f.start_pos) : extract_value line f = none := by
  unfold extract_value
  rw [if_neg]
  intro hcon
  exact absurd hcon.2.2 (by omega)

theorem dictInsert_find_ne (acc : List (String × String)) (k v n : String)
    (h : k ≠ n) :
    (dictInsert acc k v).find? (fun p => p.1 = n) = acc.find? (fun p => p.1 = n) := by
  induction acc with
  | nil => simp [dictInsert, h]
  | cons q rest ih =>
    by_cases hq : q.1 = k
    · simp only [dictInsert, if_pos hq]
      by_cases hn : q.1 = n
      · exact absurd (hq ▸ hn : k = n) h
      · rw [List.find?_cons_of_neg _ (by simpa using hn),
          List.find?_cons_of_neg _ (by simpa using hn)]
    · simp only [dictInsert, if_neg hq]
      by_cases hn : q.1 = n
      · rw [List.find?_cons_of_pos _ (by simpa using hn),
          List.find?_cons_of_pos _ (by simpa using hn)]
      · rw [List.find?_cons_of_neg _ (by simpa using hn),
          List.find?_cons_of_neg _ (by simpa using hn)]
        exact ih

theorem fvm_find_none (line : List Char) (n : String) :
    ∀ (fl : List CobolField) (acc : List (String × String)),
      acc.find? (fun p => p.1 = n) = none →
      (∀ f ∈ fl, f.name = n → line.length < f.start_pos) →
      (field_values_map line fl acc).find? (fun p => p.1 = n) = none := by
  intro fl
  induction fl with
  | nil => intro acc hacc _; exact hacc
  | cons f fl ih =>
    intro acc hacc hov
    have htail : ∀ g ∈ fl, g.name = n → line.length < g.start_pos :=
      fun g hg => hov g (List.mem_cons_of_mem f hg)
    cases hx : extract_value line f with
    | none =>
      simp only [field_values_map, hx]
      exact ih acc hacc htail
    | some v =>
      have hname : f.name ≠ n := by
        intro he
        have hn := extract_value_overrun line f (hov f (List.mem_cons_self f fl) he)
        rw [hn] at hx
        cases hx
      simp only [field_values_map, hx]
      exact ih (dictInsert acc f.name v)
        (by rw [dictInsert_find_ne acc f.name v n hname]; exact hacc) htail

/-! Claim theorems. -/

/-- Claim C1 (code bug): the claim states that `interpret("999V99")` has
length 5 (integer digits plus fraction digits).  The code instead counts
all five literal `9` characters of the clause, `V` included in the scan,
and then adds the two post-`V` digits again, yielding 7 — while the
semantically identical clauses `9(3)V9(2)` and `9(7)V9(2)` take the
repetition-group path and yield the correct 5 resp. 9.  This theorem
evaluates the embedded code at the failing and agreeing inputs. -/
theorem claim_C1_picture_eval :
    parse_picture_clause "999V99" = (7, "numeric") ∧
    parse_picture_clause "9(3)V9(2)" = (5, "numeric") ∧
    parse_picture_clause "9(7)V9(2)" = (9, "numeric") := by
  refine ⟨by decide, by decide, by decide⟩

/-- Claim C2 (counterexample): formatting the raw digits "000012345" under
PIC 999999V99 yields "123.45" (12345 divided by 100), not "1234.45" as the
claim asserts. -/
theorem claim_C2_counterexample :
    format_numeric_field "000012345" "999999V99" = "123.45" ∧
    ("123.45" : String) ≠ "1234.45" := by
  refine ⟨by decide, by decide⟩

/-- Claim C2 (amended): decimal scaling of a nonempty raw digit string under
a V-bearing PICTURE clause with d > 0 fraction digits divides the integer
value of the digit string by 10^d and renders it with exactly d digits
after the decimal point; in particular "000012345" under PIC 999999V99
yields "123.45". -/
theorem claim_C2_scaling :
    (∀ s pic : String, s.data ≠ [] → (∀ c ∈ s.data, c.isDigit = true) →
      pic.data.contains 'V' = true → 0 < fracCount pic →
      format_numeric_field s pic = renderScaled (ofChars s.data) (fracCount pic)) ∧
    format_numeric_field "000012345" "999999V99" = "123.45" := by
  refine ⟨fun s pic hne hdig hV hd => format_digits_eq s pic hne hdig hV hd, by decide⟩

/-- Claim C2 witness: the general scaling equation applied at the concrete
raw digits "000012345" and picture 999999V99. -/
theorem claim_C2_witness :
    format_numeric_field "000012345" "999999V99" =
      renderScaled (ofChars "000012345".data) (fracCount "999999V99") :=
  claim_C2_scaling.1 "000012345" "999999V99" (by decide) (by decide) (by decide)
    (by decide)

/-- Claim C3 (counterexample): with a single candidate layout, classifying
the empty line returns "UNKNOWN", not the layout's name: the empty-line
guard precedes the single-layout shortcut. -/
theorem claim_C3_counterexample :
    detect_record_type "" [("ONLY", [])] = "UNKNOWN" ∧
    ("UNKNOWN" : String) ≠ "ONLY" := by
  refine ⟨by decide, by decide⟩

/-- Claim C3 (amended): when the mapping of candidate layouts contains
exactly one entry, classify returns that layout's name for every nonempty
input line; the empty line instead returns "UNKNOWN". -/
theorem claim_C3_single_layout (nm : String) (fs : List CobolField) (line : String)
    (h : line ≠ "") : detect_record_type line [(nm, fs)] = nm := by
  unfold detect_record_type
  rw [if_neg h]
  rfl

/-- Claim C3 witness: the single-layout shortcut at a concrete nonempty line. -/
theorem claim_C3_witness : detect_record_type "X" [("ONLY", [])] = "ONLY" :=
  claim_C3_single_layout "ONLY" [] "X" (by decide)

/-- Claim C4 (code bug): the claim states that after parsing, a group field
descriptor's length equals the maximum end offset of its descendant
elementary fields.  The code only prints that maximum and never stores it:
the group descriptor keeps length 0.  On the failing input below the group
GRP-A keeps length 0 while its descendant F1 ends at offset 3. -/
theorem claim_C4_group_length_eval :
    parse_cobol_copybook (some ["02 GRP-A.", "05 F1 PIC X(3)."]) =
      [{ level := 2, name := "GRP-A", picture := none, start_pos := 1, length := 0,
         field_type := "group" },
       { level := 5, name := "F1", picture := some "X(3)", start_pos := 1, length := 3,
         field_type := "alphanumeric" }] := by
  decide

/-- Claim C5: the children of a level-02 group are laid out contiguously in
source order starting at byte 1 (each field starts where the previous one
ended), and on the concrete three-field copybook of widths 3, 5, 2 the
start positions are 1, 4, 9 with a reported group width of 10. -/
theorem claim_C5_contiguity :
    (∀ (g : String) (ms : List LineMatch), (∀ m ∈ ms, 5 ≤ m.level) →
      contiguousFrom 1 (runMatches 1
        ({ level := 2, name := g, redefinesTarget := none, pic := none } :: ms)) = true) ∧
    (parse_cobol_copybook
        (some ["02 GRP-A.", "05 F1 PIC XXX.", "05 F2 PIC X(5).", "05 F3 PIC XX."])).map
      CobolField.start_pos = [1, 1, 4, 9] ∧
    group_lengths (parse_cobol_copybook
        (some ["02 GRP-A.", "05 F1 PIC XXX.", "05 F2 PIC X(5).", "05 F3 PIC XX."])) =
      [("GRP-A", 10)] := by
  refine ⟨?_, by decide, by decide⟩
  intro g ms h
  simp only [runMatches, stepMatch, contiguousFrom, Bool.and_eq_true, decide_eq_true_eq]
  exact ⟨by simp, by simpa using runMatches_contig ms 1 h⟩

/-- Claim C5 witness: contiguity of a concrete group with children of widths
3 and 5. -/
theorem claim_C5_witness :
    contiguousFrom 1 (runMatches 1
      [{ level := 2, name := "G", redefinesTarget := none, pic := none },
       { level := 5, name := "A", redefinesTarget := none, pic := some "XXX" },
       { level := 5, name := "B", redefinesTarget := none, pic := some "X(5)" }]) = true :=
  claim_C5_contiguity.1 "G"
    [{ level := 5, name := "A", redefinesTarget := none, pic := some "XXX" },
     { level := 5, name := "B", redefinesTarget := none, pic := some "X(5)" }]
    (by decide)

/-- Claim C6: every level-02 field is recorded with startPos 1 and resets
the running cursor to 1, with or without REDEFINES; consequently in the
concrete two-group copybook where the second group redefines the first,
every field (in particular the first child of each group) starts at 1.
The second conjunct checks that the REDEFINES clause is really captured. -/
theorem claim_C6_level02_reset :
    (∀ (pos : Nat) (m : LineMatch), m.level = 2 →
      (stepMatch pos m).1.start_pos = 1 ∧ (stepMatch pos m).2 = 1) ∧
    copybookLine "02 GRP-B REDEFINES GRP-A.".data =
      some { level := 2, name := "GRP-B", redefinesTarget := some "GRP-A", pic := none } ∧
    (parse_cobol_copybook
        (some ["02 GRP-A.", "05 A1 PIC XXX.", "02 GRP-B REDEFINES GRP-A.",
               "05 B1 PIC X(5)."])).map CobolField.start_pos = [1, 1, 1, 1] := by
  refine ⟨?_, by decide, by decide⟩
  intro pos m h2
  cases hp : m.pic with
  | some p => constructor <;> simp [stepMatch, hp, h2]
  | none => constructor <;> simp [stepMatch, hp, h2]

/-- Claim C6 witness: the level-02 reset applied at cursor 7 to a REDEFINES
field that even carries a picture clause. -/
theorem claim_C6_witness :
    (stepMatch 7 { level := 2, name := "W", redefinesTarget := some "Z", pic := some "9(4)" }).1.start_pos = 1 ∧
    (stepMatch 7 { level := 2, name := "W", redefinesTarget := some "Z", pic := some "9(4)" }).2 = 1 :=
  claim_C6_level02_reset.1 7
    { level := 2, name := "W", redefinesTarget := some "Z", pic := some "9(4)" } rfl

/-- Claim C7: decoding a data line is total and tolerant of overruns: a
field starting beyond the line end extracts nothing and its CSV cell is
filled with the empty string; a field whose declared range overruns the
line end is sliced clamped to the actual line length; and the produced row
always has one cell per header name. -/
theorem claim_C7_overrun_tolerance :
    (∀ (line : List Char) (f : CobolField), line.length < f.start_pos →
      extract_value line f = none) ∧
    (∀ (line : List Char) (fl : List CobolField) (n : String),
      (∀ f ∈ fl, f.name = n → line.length < f.start_pos) →
      dictGet (field_values_map line fl []) n "" = "") ∧
    (∀ (cs : List Char) (a b : Nat), cs.length ≤ b → pySlice cs a b = cs.drop a) ∧
    (∀ (line : List Char) (fl : List CobolField) (names : List String),
      (csv_row_values line fl names).length = names.length) := by
  refine ⟨extract_value_overrun, ?_, ?_, ?_⟩
  · intro line fl n hov
    unfold dictGet
    rw [fvm_find_none line n fl [] rfl hov]
    rfl
  · intro cs a b h
    unfold pySlice
    apply List.take_of_length_le
    rw [List.length_drop]
    omega
  · intro line fl names
    simp [csv_row_values]

/-- Claim C7 witness: a field starting at byte 7 of a five-character line
extracts nothing. -/
theorem claim_C7_witness :
    extract_value "ABCDE".data
      { level := 5, name := "F", picture := some "X(9)", start_pos := 7, length := 9,
        field_type := "alphanumeric" } = none :=
  claim_C7_overrun_tolerance.1 "ABCDE".data
    { level := 5, name := "F", picture := some "X(9)", start_pos := 7, length := 9,
      field_type := "alphanumeric" } (by decide)

/-- Claim C8: when the copybook source cannot be read or decoded (modelled
as the `none` input), the parse returns the empty field list; being a
total function, the embedded parse raises nothing. -/
theorem claim_C8_read_failure : parse_cobol_copybook none = [] := rfl

/-- Claim C9: the decimal-scaling function is idempotent on digit strings
under a V-bearing PICTURE clause: re-applying it to its own output leaves
the output unchanged. -/
theorem claim_C9_idempotent (s pic : String) (hdig : ∀ c ∈ s.data, c.isDigit = true)
    (hV : pic.data.contains 'V' = true) :
    format_numeric_field (format_numeric_field s pic) pic =
      format_numeric_field s pic := by
  by_cases hne : s.data = []
  · have hs : s = "" := by rw [← strMkData s, hne]
    subst hs
    simp [format_numeric_field]
  · by_cases hd : 0 < fracCount pic
    · rw [format_digits_eq s pic hne hdig hV hd]
      exact format_renderScaled_fix (ofChars s.data) pic hV hd
    · have hfs := format_digits_fracZero s pic hne hdig hV hd
      rw [hfs]
      exact hfs

/-- Claim C9 witness: idempotence at the concrete digits "000012345" under
PIC 999999V99. -/
theorem claim_C9_witness :
    format_numeric_field (format_numeric_field "000012345" "999999V99") "999999V99" =
      format_numeric_field "000012345" "999999V99" :=
  claim_C9_idempotent "000012345" "999999V99" (by decide) (by decide)

/-- Claim C10 (counterexample): an elementary field declared at level 2 with
the cursor at 4 is recorded with startPos 1, not 4, and resets the cursor
to 1, contradicting the claim that levels 2, 3 and 4 keep the cursor and
inherit it as startPos. -/
theorem claim_C10_counterexample :
    (stepMatch 4 { level := 2, name := "B", redefinesTarget := none, pic := some "XX" }).1.start_pos = 1 ∧
    (stepMatch 4 { level := 2, name := "B", redefinesTarget := none, pic := some "XX" }).2 = 1 ∧
    (1 : Nat) ≠ 4 := by
  refine ⟨by decide, by decide, by decide⟩

/-- Claim C10 (amended): only elementary fields at level ≥ 5 advance the
byte cursor (by their picture length); an elementary field at level 3 or 4
is assigned the current cursor as its startPos and leaves the cursor
unchanged, so the next field overlaps it; an elementary field at level 2
is instead assigned startPos 1 and resets the cursor to 1. -/
theorem claim_C10_cursor :
    (∀ (pos : Nat) (m : LineMatch), m.pic ≠ none → 3 ≤ m.level → m.level ≤ 4 →
      (stepMatch pos m).1.start_pos = pos ∧ (stepMatch pos m).2 = pos) ∧
    (∀ (pos : Nat) (m : LineMatch) (p : String), m.pic = some p → 5 ≤ m.level →
      (stepMatch pos m).1.start_pos = pos ∧
      (stepMatch pos m).2 = pos + (parse_picture_clause p).1) ∧
    (∀ (pos : Nat) (m : LineMatch), m.pic ≠ none → m.level = 2 →
      (stepMatch pos m).1.start_pos = 1 ∧ (stepMatch pos m).2 = 1) := by
  refine ⟨?_, ?_, ?_⟩
  · intro pos m hpic h3 h4
    have h2 : ¬ m.level = 2 := by omega
    have h5 : ¬ 5 ≤ m.level := by omega
    cases hp : m.pic with
    | some p => constructor <;> simp [stepMatch, hp, h2, h5]
    | none => exact absurd hp hpic
  · intro pos m p hp h5
    have h2 : ¬ m.level = 2 := by omega
    constructor <;> simp [stepMatch, hp, h2, h5]
  · intro pos m hpic h2
    cases hp : m.pic with
    | some p => constructor <;> simp [stepMatch, hp, h2]
    | none => exact absurd hp hpic

/-- Claim C10 witness: a level-3 elementary field at cursor 9 keeps the
cursor at 9 and starts there. -/
theorem claim_C10_witness :
    (stepMatch 9 { level := 3, name := "E", redefinesTarget := none, pic := some "XX" }).1.start_pos = 9 ∧
    (stepMatch 9 { level := 3, name := "E", redefinesTarget := none, pic := some "XX" }).2 = 9 :=
  claim_C10_cursor.1 9
    { level := 3, name := "E", redefinesTarget := none, pic := some "XX" }
    (by decide) (by decide) (by decide)

end Cobol
